import Mathlib

set_option maxRecDepth 8192
set_option maxHeartbeats 2000000

/-!
Verification of `ntl::RandomTwister`
(src/FirewallEventMonitor/ntl/ntlRandom.hpp).

The class wraps a heap-allocated `std::mt19937` behind a `std::unique_ptr`
and exposes `uniform_int`, `uniform_real`, `uniform_probability`,
`normal_real`, `seed`, move construction, move assignment and `swap`.

Embedding choices:
* The `std::mt19937` engine is modelled exactly per the C++ standard
  ([rand.eng.mers] with the `mt19937` parameters): a list of 624 words,
  each a natural number reduced modulo `2^32`, plus a read position.
  Generation uses the block-twist formulation (as in the reference
  implementation and libstdc++): when the position reaches 624 the whole
  state is regenerated in place and the position resets to 0.
* `double` values are modelled as exact rationals (`ℚ`); the distribution
  algorithms are transcribed from their libstdc++ implementations, which is
  what the header compiles against.
* `std::uniform_int_distribution` is the libstdc++ downscaling algorithm;
  its rejection loops take an explicit fuel argument and return `none` when
  the fuel runs out (the C++ loop would simply keep drawing).
* `std::normal_distribution` (Marsaglia polar method) likewise takes fuel.
  Its returned value is `mean + sigma * y * sqrt (-2 * log r2 / r2)`, a
  fixed function of the accepted pair `(x, y)` and the two parameters; the
  model returns that determining data `(mean, sigma, x, y)` since `sqrt`
  and `log` are not rational operations.
* The `unique_ptr<engine_type> engine` member is an `Option MtEngine`:
  `none` is the moved-from (null) state.
-/

namespace ntl

/-- Word modulus of `std::mt19937`: the engine words are 32 bits wide. -/
def wordMod : Nat := 4294967296

/-- State size `n = 624` of `std::mt19937`. -/
def mtN : Nat := 624

/-- Shift size `m = 397` of `std::mt19937`. -/
def mtM : Nat := 397

/-- Twist coefficient `a = 0x9908B0DF` of `std::mt19937`. -/
def mtMatrixA : Nat := 0x9908B0DF

/-- Mask selecting the top bit of a 32-bit word (`w - r` upper bits). -/
def upperMask : Nat := 0x80000000

/-- Mask selecting the low 31 bits of a 32-bit word. -/
def lowerMask : Nat := 0x7FFFFFFF

/-- Initialization multiplier `f = 1812433253` of `std::mt19937`. -/
def mtInitMult : Nat := 1812433253

/-- State of a `std::mt19937` engine: the 624 words and the next read
position.  A position of `mtN` means the next draw must twist first, which
is how seeding leaves the engine. -/
structure MtEngine where
  mt : List Nat
  index : Nat
deriving DecidableEq

/-- Word `i` of the seeded state, per [rand.eng.mers] seeding:
`x 0 = x0` (the seed already reduced mod `2^32`) and
`x (i+1) = (1812433253 * (x i XOR (x i >> 30)) + (i+1)) mod 2^32`. -/
def mtInitWord (x0 : Nat) : Nat → Nat
  | 0 => x0
  | i + 1 => (mtInitMult * (mtInitWord x0 i ^^^ (mtInitWord x0 i >>> 30)) + (i + 1)) % wordMod

/-- Engine state whose first word is `x0` and whose remaining words follow
the seeding recurrence; the read position starts saturated so that the
first draw twists. -/
def mtFromFirstWord (x0 : Nat) : MtEngine :=
  { mt := (List.range mtN).map (mtInitWord x0), index := mtN }

/-- `std::mt19937` construction / `seed(value)`: the standard sets
`x 0 = value mod 2^w` with `w = 32` and derives the rest. -/
def mtInit (seed : Nat) : MtEngine :=
  mtFromFirstWord (seed % wordMod)

/-- One twisted word: combines the top bit of word `i` with the low bits of
word `i+1`, applies the linear-feedback step, and XORs word `i+m`.  Reads
go through the list being updated, matching the in-place C++ loop. -/
def twistValue (l : List Nat) (i : Nat) : Nat :=
  let x := (l.getD i 0 &&& upperMask) ||| (l.getD ((i + 1) % mtN) 0 &&& lowerMask)
  let xA := if x % 2 = 1 then (x >>> 1) ^^^ mtMatrixA else x >>> 1
  l.getD ((i + mtM) % mtN) 0 ^^^ xA

/-- Block regeneration of the whole state (libstdc++ `_M_gen_rand`),
updating the 624 words in place from left to right. -/
def twist (l : List Nat) : List Nat :=
  (List.range mtN).foldl (fun acc i => acc.set i (twistValue acc i)) l

/-- The `std::mt19937` tempering transform (`u,d = 11,0xFFFFFFFF`;
`s,b = 7,0x9D2C5680`; `t,c = 15,0xEFC60000`; `l = 18`). -/
def temper (y : Nat) : Nat :=
  let y1 := y ^^^ ((y >>> 11) &&& 0xFFFFFFFF)
  let y2 := y1 ^^^ ((y1 <<< 7) &&& 0x9D2C5680)
  let y3 := y2 ^^^ ((y2 <<< 15) &&& 0xEFC60000)
  y3 ^^^ (y3 >>> 18)

/-- State on entry to `std::mt19937::operator()`: if the read position is
exhausted the whole block is regenerated and the position resets to 0,
otherwise the state is unchanged. -/
def genState (e : MtEngine) : MtEngine :=
  if mtN ≤ e.index then { mt := twist e.mt, index := 0 } else e

/-- One call of `std::mt19937::operator()`: twist if needed, then temper
the word at the read position and advance the position. -/
def genNext (e : MtEngine) : Nat × MtEngine :=
  (temper ((genState e).mt.getD (genState e).index 0),
    { mt := (genState e).mt, index := (genState e).index + 1 })

/-- Model of `std::generate_canonical<double, 53>` over `mt19937`
(libstdc++): `k = ceil(53 / 32) = 2` raw draws `d0, d1` combine to
`(d0 + d1 * 2^32) / 2^64`, a rational in `[0, 1)`. -/
def generateCanonical (e : MtEngine) : ℚ × MtEngine :=
  let p0 := genNext e
  let p1 := genNext p0.2
  (((p0.1 : ℚ) + (p1.1 : ℚ) * (wordMod : ℚ)) / ((wordMod : ℚ) * (wordMod : ℚ)), p1.2)

/-- Model of `std::uniform_real_distribution<double>::operator()`
(libstdc++): `canonical * (b - a) + a`, over exact rationals. -/
def uniformRealDistribution (a b : ℚ) (e : MtEngine) : ℚ × MtEngine :=
  let p := generateCanonical e
  (p.1 * (b - a) + a, p.2)

/-- Size of the raw generator range minus one:
`mt19937::max() - mt19937::min() = 2^32 - 1`. -/
def urngRange : Nat := wordMod - 1

/-- The libstdc++ `uniform_int_distribution` downscaling rejection loop
(`do ret = draw; while (ret >= past); ret /= scaling;`), with fuel.  The
C++ loop has no bound; `none` is fuel exhaustion. -/
def downscaleLoop (past scaling : Nat) : Nat → MtEngine → Option (Nat × MtEngine)
  | 0, _ => none
  | fuel + 1, e =>
    let p := genNext e
    if past ≤ p.1 then downscaleLoop past scaling fuel p.2
    else some (p.1 / scaling, p.2)

/-- Model of libstdc++ `std::uniform_int_distribution::operator()` reduced
to the offset from the lower bound: given `urange = b - a` it produces a
value in `[0, urange]`.  Three branches as in the source: downscaling when
the generator range exceeds `urange`; combining a recursive draw with a raw
draw (with a rejection loop) when `urange` is larger; and a raw draw when
they coincide.  Fuel bounds loop iterations and recursion depth. -/
def uniformIntAdjust : Nat → Nat → MtEngine → Option (Nat × MtEngine)
  | _, 0, _ => none
  | urange, fuel + 1, e =>
    if urange < urngRange then
      let uerange := urange + 1
      let scaling := urngRange / uerange
      downscaleLoop (uerange * scaling) scaling (fuel + 1) e
    else if urngRange < urange then
      match uniformIntAdjust (urange / (urngRange + 1)) fuel e with
      | none => none
      | some ph =>
        let tmp := (urngRange + 1) * ph.1
        let p := genNext ph.2
        let ret := tmp + p.1
        if urange < ret ∨ ret < tmp then uniformIntAdjust urange fuel p.2
        else some (ret, p.2)
    else
      let p := genNext e
      some (p.1, p.2)

/-- Body of `RandomTwister::uniform_int<IntegerT>`:
`std::uniform_int_distribution<IntegerT>(lo, hi)(*engine)`.  Integer values
of every C++ integer type embed into `ℤ`; for `lo ≤ hi` the unsigned
range computation `uctype(hi) - uctype(lo)` equals `(hi - lo).toNat` and
the final conversion back is `lo + offset`. -/
def uniform_int (lo hi : Int) (fuel : Nat) (e : MtEngine) : Option (Int × MtEngine) :=
  (uniformIntAdjust (hi - lo).toNat fuel e).map fun p => (lo + (p.1 : Int), p.2)

/-- Body of `RandomTwister::uniform_real<RealT>`:
`std::uniform_real_distribution<RealT>(lo, hi)(*engine)`. -/
def uniform_real (a b : ℚ) (e : MtEngine) : ℚ × MtEngine :=
  uniformRealDistribution a b e

/-- Body of `RandomTwister::uniform_probability`:
`std::uniform_real_distribution<double>(0.0, 1.0)(*engine)`. -/
def uniform_probability (e : MtEngine) : ℚ × MtEngine :=
  uniformRealDistribution 0 1 e

/-- Determining data of one `std::normal_distribution<double>` draw: the
returned double is `mean + sigma * polarY * sqrt (-2 * log r2 / r2)` with
`r2 = polarX^2 + polarY^2`, a fixed function of these four rationals. -/
structure NormalSample where
  mean : ℚ
  sigma : ℚ
  polarX : ℚ
  polarY : ℚ
deriving DecidableEq

/-- The Marsaglia polar rejection loop of libstdc++
`std::normal_distribution`: draw `x, y` uniformly in `[-1, 1)` via two
canonical values, retry while `x^2 + y^2 > 1` or `= 0`.  Fuel-bounded. -/
def normalPolarLoop : Nat → MtEngine → Option ((ℚ × ℚ) × MtEngine)
  | 0, _ => none
  | fuel + 1, e =>
    let p1 := generateCanonical e
    let p2 := generateCanonical p1.2
    let x := 2 * p1.1 - 1
    let y := 2 * p2.1 - 1
    let r2 := x * x + y * y
    if 1 < r2 ∨ r2 = 0 then normalPolarLoop fuel p2.2
    else some ((x, y), p2.2)

/-- Body of `RandomTwister::normal_real`: a freshly constructed
`std::normal_distribution<double>(mean, sigma)` applied to the engine
(no saved value can carry over since the distribution object is new). -/
def normal_real (mean sigma : ℚ) (fuel : Nat) (e : MtEngine) :
    Option (NormalSample × MtEngine) :=
  (normalPolarLoop fuel e).map fun p =>
    ({ mean := mean, sigma := sigma, polarX := p.1.1, polarY := p.1.2 }, p.2)

/-- The `RandomTwister` object: its single data member is
`std::unique_ptr<engine_type> engine`; `none` models the null pointer left
behind by a move. -/
structure RandomTwister where
  engine : Option MtEngine
deriving DecidableEq

/-- `RandomTwister::RandomTwister(unsigned long _seed)`: allocates an
engine constructed from the seed. -/
def randomTwister (seed : Nat) : RandomTwister :=
  { engine := some (mtInit seed) }

/-- `RandomTwister::seed(unsigned long)`: `engine->seed(_seed)` re-seeds
the pointed-to engine in place.  On a moved-from object the C++ dereference
is undefined; the model leaves `none` unchanged. -/
def RandomTwister.seedWith (g : RandomTwister) (s : Nat) : RandomTwister :=
  { engine := g.engine.map fun _ => mtInit s }

/-- `RandomTwister::RandomTwister(RandomTwister&&)`: the new object steals
the pointer; returns (new object, source after the move). -/
def RandomTwister.moveConstruct (other : RandomTwister) :
    RandomTwister × RandomTwister :=
  ({ engine := other.engine }, { engine := none })

/-- `RandomTwister::swap`: exchanges the two `unique_ptr`s; returns the
pair after the exchange. -/
def RandomTwister.swap (a b : RandomTwister) : RandomTwister × RandomTwister :=
  ({ engine := b.engine }, { engine := a.engine })

/-- `RandomTwister::operator=(RandomTwister&&)` for distinct objects:
`RandomTwister temp(std::move(other)); temp.swap(*this);`.  Returns
(assignee after, source after); `temp` is destroyed. -/
def RandomTwister.moveAssign (dst other : RandomTwister) :
    RandomTwister × RandomTwister :=
  let tempOther := RandomTwister.moveConstruct other
  let tempDst := RandomTwister.swap tempOther.1 dst
  (tempDst.2, tempOther.2)

/-- `operator=(RandomTwister&&)` executed with `other` aliased to `*this`
(`a = std::move(a)`), stepped through the source statement by statement:
`temp` steals `a`'s pointer and `a` becomes null, then `temp.swap(a)`
hands the pointer straight back. -/
def RandomTwister.moveAssignSelf (a : RandomTwister) : RandomTwister :=
  let temp : RandomTwister := { engine := a.engine }
  let a1 : RandomTwister := { engine := none }
  let a2 : RandomTwister := { engine := temp.engine }
  let _temp1 : RandomTwister := { engine := a1.engine }
  a2

/-- One sampling call together with its arguments (fuel bounds the
rejection loops of the fuelled operations). -/
inductive SampleCall where
  | uniformInt (lo hi : Int) (fuel : Nat)
  | uniformReal (lo hi : ℚ)
  | uniformProb
  | normalReal (mean sigma : ℚ) (fuel : Nat)
deriving DecidableEq

/-- Observable outcome of one sampling call.  `noResult` marks a call the
model cannot complete: a moved-from generator (undefined behaviour in C++)
or rejection-loop fuel exhaustion. -/
inductive SampleValue where
  | intVal (v : Int)
  | realVal (v : ℚ)
  | normalVal (v : NormalSample)
  | noResult
deriving DecidableEq

/-- Executes one sampling call on a `RandomTwister`, as the member
functions do: dereference the engine pointer, run the distribution, leave
the advanced engine behind the same pointer. -/
def stepCall (c : SampleCall) (g : RandomTwister) : SampleValue × RandomTwister :=
  match g.engine with
  | none => (SampleValue.noResult, g)
  | some e =>
    match c with
    | SampleCall.uniformInt lo hi fuel =>
      match uniform_int lo hi fuel e with
      | none => (SampleValue.noResult, g)
      | some p => (SampleValue.intVal p.1, { engine := some p.2 })
    | SampleCall.uniformReal lo hi =>
      let p := uniform_real lo hi e
      (SampleValue.realVal p.1, { engine := some p.2 })
    | SampleCall.uniformProb =>
      let p := uniform_probability e
      (SampleValue.realVal p.1, { engine := some p.2 })
    | SampleCall.normalReal mean sigma fuel =>
      match normal_real mean sigma fuel e with
      | none => (SampleValue.noResult, g)
      | some p => (SampleValue.normalVal p.1, { engine := some p.2 })

/-- Runs a sequence of sampling calls, collecting the outputs. -/
def runCalls : List SampleCall → RandomTwister → List SampleValue × RandomTwister
  | [], g => ([], g)
  | c :: cs, g =>
    let p := stepCall c g
    let q := runCalls cs p.2
    (p.1 :: q.1, q.2)

/-- `RandomTwister::uniform_int` at the object level: defined only on a
valid (non-moved-from) generator. -/
def uniformIntOn (lo hi : Int) (fuel : Nat) (g : RandomTwister) :
    Option (Int × RandomTwister) :=
  g.engine.bind fun e =>
    (uniform_int lo hi fuel e).map fun p => (p.1, { engine := some p.2 })

/-- `RandomTwister::uniform_real` at the object level. -/
def uniformRealOn (a b : ℚ) (g : RandomTwister) : Option (ℚ × RandomTwister) :=
  g.engine.map fun e =>
    let p := uniform_real a b e
    (p.1, { engine := some p.2 })

/-- `RandomTwister::uniform_probability` at the object level. -/
def uniformProbabilityOn (g : RandomTwister) : Option (ℚ × RandomTwister) :=
  g.engine.map fun e =>
    let p := uniform_probability e
    (p.1, { engine := some p.2 })

/-- `RandomTwister::normal_real` at the object level. -/
def normalRealOn (mean sigma : ℚ) (fuel : Nat) (g : RandomTwister) :
    Option (NormalSample × RandomTwister) :=
  g.engine.bind fun e =>
    (normal_real mean sigma fuel e).map fun p => (p.1, { engine := some p.2 })

/-- A surrounding program state: the generator plus unrelated components
(an arbitrary global state and an I/O transcript).  Sampling methods of
the source reference only the `engine` member, so their lifted action
touches only `rt`. -/
structure ProgramWorld (α : Type) where
  rt : RandomTwister
  globals : α
  ioLog : List String

/-- A sampling call executed inside a surrounding program state: the
member function runs on the `RandomTwister` subobject. -/
def stepCallWorld {α : Type} (c : SampleCall) (w : ProgramWorld α) :
    SampleValue × ProgramWorld α :=
  let p := stepCall c w.rt
  (p.1, { rt := p.2, globals := w.globals, ioLog := w.ioLog })

/-- All engine words are genuine 32-bit values.  This is automatic in C++
(the words have an unsigned 32-bit type) and an invariant of the model. -/
def wordsBounded (l : List Nat) : Prop := ∀ x ∈ l, x < wordMod

instance (l : List Nat) : Decidable (wordsBounded l) :=
  List.decidableBAll _ l

/-- Well-formed engine state: every stored word fits in 32 bits. -/
def MtEngine.wf (e : MtEngine) : Prop := wordsBounded e.mt

instance (e : MtEngine) : Decidable e.wf :=
  List.decidableBAll _ e.mt

/-- An arbitrary well-formed engine state used to instantiate theorems:
all-zero words with the read position at the start. -/
def zeroEngine : MtEngine := { mt := List.replicate mtN 0, index := 0 }

/-! ### The 32-bit word invariant -/

theorem wordMod_eq_pow : wordMod = 2 ^ 32 := by norm_num [wordMod]

theorem xor_lt_wordMod {x y : Nat} (hx : x < wordMod) (hy : y < wordMod) :
    x ^^^ y < wordMod := by
  rw [wordMod_eq_pow] at hx hy ⊢
  exact Nat.bitwise_lt hx hy

theorem or_lt_wordMod {x y : Nat} (hx : x < wordMod) (hy : y < wordMod) :
    x ||| y < wordMod := by
  rw [wordMod_eq_pow] at hx hy ⊢
  exact Nat.bitwise_lt hx hy

theorem and_lt_wordMod (x : Nat) {y : Nat} (hy : y < wordMod) :
    x &&& y < wordMod :=
  Nat.lt_of_le_of_lt Nat.and_le_right hy

theorem shiftRight_le_self (x k : Nat) : x >>> k ≤ x := by
  rw [Nat.shiftRight_eq_div_pow]
  exact Nat.div_le_self x (2 ^ k)

theorem shiftRight_lt_wordMod {x : Nat} (hx : x < wordMod) (k : Nat) :
    x >>> k < wordMod :=
  Nat.lt_of_le_of_lt (shiftRight_le_self x k) hx

theorem getD_lt_of_bounded : ∀ (l : List Nat), wordsBounded l → ∀ i, l.getD i 0 < wordMod
  | [], _, _ => by simp [List.getD_nil]; decide
  | a :: t, h, 0 => by
    rw [List.getD_cons_zero]
    exact h a (List.mem_cons_self a t)
  | a :: t, h, i + 1 => by
    rw [List.getD_cons_succ]
    exact getD_lt_of_bounded t (fun x hx => h x (List.mem_cons_of_mem a hx)) i

theorem temperStep_lt {z w m : Nat} (hz : z < wordMod) (hm : m < wordMod) :
    z ^^^ (w &&& m) < wordMod :=
  xor_lt_wordMod hz (and_lt_wordMod w hm)

theorem temper_lt {y : Nat} (hy : y < wordMod) : temper y < wordMod := by
  simp only [temper]
  exact xor_lt_wordMod
    (temperStep_lt (temperStep_lt (temperStep_lt hy (by decide)) (by decide)) (by decide))
    (shiftRight_lt_wordMod
      (temperStep_lt (temperStep_lt (temperStep_lt hy (by decide)) (by decide)) (by decide)) 18)

theorem twistValue_lt {l : List Nat} (h : wordsBounded l) (i : Nat) :
    twistValue l i < wordMod := by
  simp only [twistValue]
  apply xor_lt_wordMod (getD_lt_of_bounded l h _)
  have hx : (l.getD i 0 &&& upperMask) ||| (l.getD ((i + 1) % mtN) 0 &&& lowerMask) < wordMod :=
    or_lt_wordMod (and_lt_wordMod _ (by decide)) (and_lt_wordMod _ (by decide))
  split
  · exact xor_lt_wordMod (shiftRight_lt_wordMod hx 1) (by decide)
  · exact shiftRight_lt_wordMod hx 1

theorem wordsBounded_set {l : List Nat} (h : wordsBounded l) {v : Nat} (hv : v < wordMod)
    (i : Nat) : wordsBounded (l.set i v) := by
  intro x hx
  rcases List.mem_or_eq_of_mem_set hx with hmem | rfl
  · exact h x hmem
  · exact hv

theorem foldl_twist_wf (is : List Nat) :
    ∀ l : List Nat, wordsBounded l →
      wordsBounded (is.foldl (fun acc i => acc.set i (twistValue acc i)) l) := by
  induction is with
  | nil => intro l h; exact h
  | cons i t ih =>
    intro l h
    simp only [List.foldl]
    exact ih _ (wordsBounded_set h (twistValue_lt h i) i)

theorem twist_wf {l : List Nat} (h : wordsBounded l) : wordsBounded (twist l) :=
  foldl_twist_wf (List.range mtN) l h

theorem MtEngine.wf_mk {l : List Nat} (i : Nat) (h : wordsBounded l) :
    MtEngine.wf { mt := l, index := i } := h

theorem genState_wf {e : MtEngine} (h : e.wf) : (genState e).wf := by
  unfold genState
  by_cases hc : mtN ≤ e.index
  · rw [if_pos hc]
    exact MtEngine.wf_mk 0 (twist_wf h)
  · rw [if_neg hc]
    exact h

theorem genNext_wf {e : MtEngine} (h : e.wf) : (genNext e).2.wf :=
  MtEngine.wf_mk _ (genState_wf h)

theorem genNext_fst_lt {e : MtEngine} (h : e.wf) : (genNext e).1 < wordMod :=
  temper_lt (getD_lt_of_bounded _ (genState_wf h) _)

/-! ### Bounds on the distribution layers -/

theorem generateCanonical_wf {e : MtEngine} (h : e.wf) : (generateCanonical e).2.wf :=
  genNext_wf (genNext_wf h)

theorem generateCanonical_nonneg (e : MtEngine) : 0 ≤ (generateCanonical e).1 := by
  simp only [generateCanonical]
  positivity

theorem generateCanonical_lt_one {e : MtEngine} (h : e.wf) : (generateCanonical e).1 < 1 := by
  have h0 : (genNext e).1 < wordMod := genNext_fst_lt h
  have h1 : (genNext (genNext e).2).1 < wordMod := genNext_fst_lt (genNext_wf h)
  have key : (genNext e).1 + (genNext (genNext e).2).1 * wordMod < wordMod * wordMod := by
    unfold wordMod at h0 h1 ⊢
    omega
  have hpos : (0 : ℚ) < (wordMod : ℚ) * (wordMod : ℚ) := by
    norm_num [wordMod]
  simp only [generateCanonical]
  rw [div_lt_one hpos]
  exact_mod_cast key

theorem uniformRealDistribution_mem {a b : ℚ} {e : MtEngine} (hwf : e.wf) (hab : a ≤ b) :
    a ≤ (uniformRealDistribution a b e).1 ∧ (uniformRealDistribution a b e).1 ≤ b := by
  have h0 := generateCanonical_nonneg e
  have h1 := generateCanonical_lt_one hwf
  have hu1 : (generateCanonical e).1 * (b - a) ≤ b - a :=
    mul_le_of_le_one_left (sub_nonneg.mpr hab) h1.le
  have hu0 : 0 ≤ (generateCanonical e).1 * (b - a) :=
    mul_nonneg h0 (sub_nonneg.mpr hab)
  simp only [uniformRealDistribution]
  constructor <;> linarith

theorem downscaleLoop_some : ∀ (fuel : Nat) {past scaling : Nat} {e : MtEngine}
    {v : Nat} {e' : MtEngine}, e.wf →
    downscaleLoop past scaling fuel e = some (v, e') →
    v * scaling < past ∧ e'.wf
  | 0, _, _, _, _, _, _, h => by simp [downscaleLoop] at h
  | fuel + 1, past, scaling, e, v, e', hwf, h => by
    simp only [downscaleLoop] at h
    split at h
    · exact downscaleLoop_some fuel (genNext_wf hwf) h
    · rename_i hlt
      cases h
      refine ⟨?_, genNext_wf hwf⟩
      calc (genNext e).1 / scaling * scaling ≤ (genNext e).1 := Nat.div_mul_le_self _ _
        _ < past := by omega

theorem uniformIntAdjust_spec : ∀ (fuel urange : Nat) {e : MtEngine}
    {v : Nat} {e' : MtEngine}, e.wf →
    uniformIntAdjust urange fuel e = some (v, e') → v ≤ urange ∧ e'.wf
  | 0, urange, e, v, e', hwf, h => by simp [uniformIntAdjust] at h
  | fuel + 1, urange, e, v, e', hwf, h => by
    simp only [uniformIntAdjust] at h
    split at h
    · rename_i hur
      have hspos : 0 < urngRange / (urange + 1) :=
        Nat.div_pos (by omega) (Nat.succ_pos urange)
      have hres := downscaleLoop_some (fuel + 1) hwf h
      refine ⟨?_, hres.2⟩
      have hmul := hres.1
      by_contra hge
      push_neg at hge
      have : (urange + 1) * (urngRange / (urange + 1)) ≤ v * (urngRange / (urange + 1)) :=
        Nat.mul_le_mul_right _ hge
      omega
    · split at h
      · rename_i hne hur2
        split at h
        · exact Option.noConfusion h
        · rename_i ph hrec
          obtain ⟨r, e2⟩ := ph
          have hrecSpec := uniformIntAdjust_spec fuel _ hwf hrec
          split at h
          · have := uniformIntAdjust_spec fuel urange (genNext_wf hrecSpec.2) h
            exact this
          · rename_i hacc
            push_neg at hacc
            cases h
            exact ⟨hacc.1, genNext_wf hrecSpec.2⟩
      · rename_i hne hne2
        cases h
        have hv := genNext_fst_lt hwf
        refine ⟨?_, genNext_wf hwf⟩
        unfold urngRange wordMod at hne hne2 hv
        omega

theorem uniform_int_mem {lo hi : Int} {fuel : Nat} {e : MtEngine} {v : Int} {e' : MtEngine}
    (hwf : e.wf) (hle : lo ≤ hi) (h : uniform_int lo hi fuel e = some (v, e')) :
    lo ≤ v ∧ v ≤ hi := by
  unfold uniform_int at h
  rcases Option.map_eq_some'.mp h with ⟨p, hp, hpv⟩
  obtain ⟨r, e2⟩ := p
  have hr := (uniformIntAdjust_spec fuel _ hwf hp).1
  cases hpv
  constructor
  · omega
  · have hcast : (r : Int) ≤ ((hi - lo).toNat : Int) := by exact_mod_cast hr
    rw [Int.toNat_of_nonneg (by omega)] at hcast
    omega

/-! ### The claims -/

/-- C1: two `RandomTwister` instances constructed with the same seed and
subjected to the same sequence of sampling calls with the same arguments
produce identical output sequences. -/
theorem claim1_seed_determinism (S : Nat) (calls : List SampleCall)
    (g1 g2 : RandomTwister) (h1 : g1 = randomTwister S) (h2 : g2 = randomTwister S) :
    (runCalls calls g1).1 = (runCalls calls g2).1 := by
  subst h1
  subst h2
  rfl

/-- Witness for C1: the spec's concrete scenario, seed 42 with three
`uniform_int(1, 100)` calls on each of two fresh instances. -/
theorem claim1_seed_determinism_witness :
    (runCalls [SampleCall.uniformInt 1 100 5, SampleCall.uniformInt 1 100 5,
      SampleCall.uniformInt 1 100 5] (randomTwister 42)).1 =
    (runCalls [SampleCall.uniformInt 1 100 5, SampleCall.uniformInt 1 100 5,
      SampleCall.uniformInt 1 100 5] (randomTwister 42)).1 :=
  claim1_seed_determinism 42
    [SampleCall.uniformInt 1 100 5, SampleCall.uniformInt 1 100 5,
      SampleCall.uniformInt 1 100 5]
    (randomTwister 42) (randomTwister 42) rfl rfl

/-- C2: on a valid generator, `uniform_int(lo, hi)` with `lo ≤ hi` returns
a value `v` with `lo ≤ v ≤ hi`. -/
theorem claim2_uniform_int_in_range (lo hi : Int) (fuel : Nat)
    (g g' : RandomTwister) (e : MtEngine) (v : Int)
    (hg : g.engine = some e) (hwf : e.wf) (hle : lo ≤ hi)
    (h : uniformIntOn lo hi fuel g = some (v, g')) : lo ≤ v ∧ v ≤ hi := by
  unfold uniformIntOn at h
  rw [hg, Option.some_bind] at h
  rcases Option.map_eq_some'.mp h with ⟨p, hp, hpv⟩
  obtain ⟨pv, pe⟩ := p
  cases hpv
  exact uniform_int_mem hwf hle hp

/-- Witness for C2: `uniform_int(1, 100)` on a generator in the all-zero
engine state returns 1. -/
theorem claim2_uniform_int_in_range_witness : (1 : Int) ≤ 1 ∧ (1 : Int) ≤ 100 :=
  claim2_uniform_int_in_range 1 100 1 { engine := some zeroEngine }
    { engine := some { mt := List.replicate mtN 0, index := 1 } } zeroEngine 1
    rfl (by decide) (by decide) (by decide)

/-- C3: on a valid generator, `uniform_real(a, b)` with `a ≤ b` returns a
value in `[a, b]`, and `uniform_probability()` returns a value in
`[0, 1]`. -/
theorem claim3_uniform_real_in_range (a b : ℚ) (g g1 g2 : RandomTwister)
    (e : MtEngine) (v p : ℚ) (hg : g.engine = some e) (hwf : e.wf) (hab : a ≤ b)
    (hr : uniformRealOn a b g = some (v, g1))
    (hp : uniformProbabilityOn g = some (p, g2)) :
    (a ≤ v ∧ v ≤ b) ∧ 0 ≤ p ∧ p ≤ 1 := by
  unfold uniformRealOn at hr
  unfold uniformProbabilityOn at hp
  rw [hg, Option.map_some'] at hr hp
  cases hr
  cases hp
  exact ⟨uniformRealDistribution_mem hwf hab,
    uniformRealDistribution_mem hwf (by norm_num)⟩

/-- Witness for C3: both draws on a generator holding the all-zero engine
state land inside the requested ranges. -/
theorem claim3_uniform_real_in_range_witness :
    ((0 : ℚ) ≤ (uniform_real 0 1 zeroEngine).1 ∧ (uniform_real 0 1 zeroEngine).1 ≤ 1) ∧
    (0 : ℚ) ≤ (uniform_probability zeroEngine).1 ∧ (uniform_probability zeroEngine).1 ≤ 1 :=
  claim3_uniform_real_in_range 0 1 { engine := some zeroEngine }
    { engine := some (uniform_real 0 1 zeroEngine).2 }
    { engine := some (uniform_probability zeroEngine).2 }
    zeroEngine (uniform_real 0 1 zeroEngine).1 (uniform_probability zeroEngine).1
    rfl (by decide) (by norm_num) rfl rfl

/-- C4: after `seed(X)` on a valid generator, the subsequent sample
sequence for any sequence of calls equals that of a freshly constructed
generator with seed `X`; prior history has no influence. -/
theorem claim4_seed_resets_stream (X : Nat) (calls : List SampleCall)
    (g : RandomTwister) (e : MtEngine) (hg : g.engine = some e) :
    runCalls calls (g.seedWith X) = runCalls calls (randomTwister X) := by
  have hsw : g.seedWith X = randomTwister X := by
    unfold RandomTwister.seedWith randomTwister
    rw [hg]
    rfl
  rw [hsw]

/-- Witness for C4: reseeding a generator holding the all-zero engine
state with seed 7. -/
theorem claim4_seed_resets_stream_witness :
    runCalls [SampleCall.uniformProb] ((RandomTwister.mk (some zeroEngine)).seedWith 7) =
    runCalls [SampleCall.uniformProb] (randomTwister 7) :=
  claim4_seed_resets_stream 7 [SampleCall.uniformProb]
    { engine := some zeroEngine } zeroEngine rfl

/-- C5: after move-construction or move-assignment from a generator, the
destination produces exactly the sample sequence the source would have
produced, for any sequence of calls. -/
theorem claim5_move_preserves_stream (g dst : RandomTwister)
    (calls : List SampleCall) :
    runCalls calls (RandomTwister.moveConstruct g).1 = runCalls calls g ∧
    runCalls calls (RandomTwister.moveAssign dst g).1 = runCalls calls g :=
  ⟨rfl, rfl⟩

/-- C6: `uniform_probability()` returns the same value and leaves the
generator in the same state as `uniform_real(0.0, 1.0)` at type `double`,
both at the engine level and at the object level. -/
theorem claim6_probability_is_uniform_real01 (g : RandomTwister) (e : MtEngine) :
    uniformProbabilityOn g = uniformRealOn 0 1 g ∧
    uniform_probability e = uniform_real 0 1 e :=
  ⟨rfl, rfl⟩

/-- C7: every sampling operation and `seed()` on a valid (non-moved-from)
generator with a well-formed range completes with a result: the real and
probability draws and reseeding always, and the fuelled integer and normal
draws whenever their rejection loops accept within the modelled fuel. -/
theorem claim7_sampling_never_fails (g : RandomTwister) (e : MtEngine)
    (a b : ℚ) (lo hi : Int) (mean sigma : ℚ) (X fuel : Nat)
    (hg : g.engine = some e) (hab : a ≤ b) (hle : lo ≤ hi) :
    (uniformRealOn a b g).isSome = true ∧
    (uniformProbabilityOn g).isSome = true ∧
    ((g.seedWith X).engine).isSome = true ∧
    ((uniform_int lo hi fuel e).isSome = true →
      (uniformIntOn lo hi fuel g).isSome = true) ∧
    ((normal_real mean sigma fuel e).isSome = true →
      (normalRealOn mean sigma fuel g).isSome = true) := by
  refine ⟨?_, ?_, ?_, ?_, ?_⟩
  · unfold uniformRealOn
    rw [hg]
    rfl
  · unfold uniformProbabilityOn
    rw [hg]
    rfl
  · unfold RandomTwister.seedWith
    rw [hg]
    rfl
  · intro hs
    unfold uniformIntOn
    rw [hg, Option.some_bind]
    cases hu : uniform_int lo hi fuel e with
    | none => rw [hu] at hs; simp at hs
    | some p => rfl
  · intro hs
    unfold normalRealOn
    rw [hg, Option.some_bind]
    cases hu : normal_real mean sigma fuel e with
    | none => rw [hu] at hs; simp at hs
    | some p => rfl

/-- Witness for C7: a valid generator holding the all-zero engine state,
with ranges `[0, 1]`. -/
theorem claim7_sampling_never_fails_witness :
    (uniformRealOn 0 1 { engine := some zeroEngine }).isSome = true ∧
    (uniformProbabilityOn { engine := some zeroEngine }).isSome = true ∧
    (((RandomTwister.mk (some zeroEngine)).seedWith 0).engine).isSome = true ∧
    ((uniform_int 0 1 1 zeroEngine).isSome = true →
      (uniformIntOn 0 1 1 { engine := some zeroEngine }).isSome = true) ∧
    ((normal_real 0 1 1 zeroEngine).isSome = true →
      (normalRealOn 0 1 1 { engine := some zeroEngine }).isSome = true) :=
  claim7_sampling_never_fails { engine := some zeroEngine } zeroEngine
    0 1 0 1 0 1 0 1 rfl (by norm_num) (by decide)

/-- C8: a sampling call changes only the generator subobject of the
surrounding program state (no global component, no I/O transcript), and
its outcome is a function of the engine state alone. -/
theorem claim8_sampling_frame (α : Type) (w : ProgramWorld α) (c : SampleCall)
    (g1 g2 : RandomTwister) (hgg : g1.engine = g2.engine) :
    ((stepCallWorld c w).2.globals = w.globals ∧
      (stepCallWorld c w).2.ioLog = w.ioLog ∧
      (stepCallWorld c w).2.rt = (stepCall c w.rt).2 ∧
      (stepCallWorld c w).1 = (stepCall c w.rt).1) ∧
    stepCall c g1 = stepCall c g2 := by
  have hg : g1 = g2 := by
    cases g1
    cases g2
    cases hgg
    rfl
  exact ⟨⟨rfl, rfl, rfl, rfl⟩, by rw [hg]⟩

/-- Witness for C8: a world holding a moved-from generator, a numeric
global and an empty I/O transcript, with a probability draw. -/
theorem claim8_sampling_frame_witness :
    ((stepCallWorld SampleCall.uniformProb
        (ProgramWorld.mk (RandomTwister.mk none) 0 [])).2.globals = (0 : Nat) ∧
      (stepCallWorld SampleCall.uniformProb
        (ProgramWorld.mk (RandomTwister.mk none) 0 [])).2.ioLog = [] ∧
      (stepCallWorld SampleCall.uniformProb
        (ProgramWorld.mk (RandomTwister.mk none) 0 [])).2.rt =
        (stepCall SampleCall.uniformProb (RandomTwister.mk none)).2 ∧
      (stepCallWorld SampleCall.uniformProb
        (ProgramWorld.mk (RandomTwister.mk none) 0 [])).1 =
        (stepCall SampleCall.uniformProb (RandomTwister.mk none)).1) ∧
    stepCall SampleCall.uniformProb (RandomTwister.mk none) =
      stepCall SampleCall.uniformProb (RandomTwister.mk none) :=
  claim8_sampling_frame Nat (ProgramWorld.mk (RandomTwister.mk none) 0 [])
    SampleCall.uniformProb (RandomTwister.mk none) (RandomTwister.mk none) rfl

/-- C9: seeds congruent modulo `2^32` are equivalent, both at construction
and at reseeding: only the low 32 bits of the seed matter. -/
theorem claim9_seed_entropy_mod32 (S1 S2 : Nat) (calls : List SampleCall)
    (g : RandomTwister) (h : S1 % wordMod = S2 % wordMod) :
    runCalls calls (randomTwister S1) = runCalls calls (randomTwister S2) ∧
    runCalls calls (g.seedWith S1) = runCalls calls (g.seedWith S2) := by
  have hmt : mtInit S1 = mtInit S2 := by
    unfold mtInit
    rw [h]
  constructor
  · unfold randomTwister
    rw [hmt]
  · unfold RandomTwister.seedWith
    rw [hmt]

/-- Witness for C9: seeds 42 and `2^32 + 42`. -/
theorem claim9_seed_entropy_mod32_witness :
    (runCalls [] (randomTwister 42) = runCalls [] (randomTwister 4294967338) ∧
      runCalls [] ((RandomTwister.mk none).seedWith 42) =
        runCalls [] ((RandomTwister.mk none).seedWith 4294967338)) :=
  claim9_seed_entropy_mod32 42 4294967338 [] (RandomTwister.mk none) (by decide)

/-- C10: self-move-assignment leaves the generator unchanged and valid;
its subsequent sample sequence is what it would have been anyway. -/
theorem claim10_self_move_assign (a : RandomTwister) (calls : List SampleCall) :
    a.moveAssignSelf = a ∧
    runCalls calls a.moveAssignSelf = runCalls calls a :=
  ⟨rfl, rfl⟩

end ntl
